import Mathlib

/-!
# IFC5 viewer: transform resolution and mesh extraction

A shallow embedding of `findTransform` and `getMeshNodes` from
`src/components/Scene.jsx`, with the properties of the specification stated
over it.

Modelling conventions.

* Numbers are rationals: the arithmetic of the geometry transformer is
  studied in exact arithmetic.
* A prim is a JSON object with the fields `name`, `attributes`, `inherits`
  and `children`.  `attributes` and `inherits` may be absent.
* An attribute map is a JSON object whose values are attribute blocks; it is
  represented by its lookup function from keys to optional blocks.
* An attribute block is a JSON object; the fields the code reads
  (`transform`, `code`, `points`, `faceVertexIndices`) are typed and
  optional, everything else is kept as opaque key/value pairs.
* Arrays are always truthy in JavaScript, so a present `transform`, `points`
  or `faceVertexIndices` passes a truthiness test; a string is truthy when it
  is not empty.
* `findTransform` is recursive without a bound in the source.  The embedding
  carries a recursion budget: the result `none` means that the budget was
  exhausted, `some t` that the call returned `t`.
-/

namespace IFC5Viewer

/-! ## Data model -/

/-- A 4x4 numeric matrix, row-major: `M i j` is `M[i][j]`. -/
abbrev Matrix4 := Matrix (Fin 4) (Fin 4) ℚ

/-- A point `[x, y, z]`: `p 0`, `p 1`, `p 2` are `p[0]`, `p[1]`, `p[2]`. -/
abbrev Point3 := Fin 3 → ℚ

/-- An attribute block (the value stored under one attribute key). -/
structure Block where
  transform : Option Matrix4 := none
  code : Option String := none
  uri : Option String := none
  points : Option (List Point3) := none
  faceVertexIndices : Option (List Int) := none
  other : List (String × String) := []

/-- An attribute map, by its lookup function: `attrs k` is `attrs[k]`. -/
abbrev Attributes := String → Option Block

/-- A prim of the scene description. -/
inductive Prim where
  | mk (name : String) (attributes : Option Attributes)
      (inherits : Option (List String)) (children : List Prim)

namespace Prim

/-- Field `name` of a prim. -/
def name : Prim → String
  | mk n _ _ _ => n

/-- Field `attributes` of a prim. -/
def attributes : Prim → Option Attributes
  | mk _ a _ _ => a

/-- Field `inherits` of a prim. -/
def inherits : Prim → Option (List String)
  | mk _ _ i _ => i

/-- Field `children` of a prim. -/
def children : Prim → List Prim
  | mk _ _ _ c => c

end Prim

/-- An element of the result of `getMeshNodes`:
`{ ...ifcNode, bodyGeometry: { ...geometry, points: transformedPoints } }`. -/
structure MeshNode where
  node : Prim
  bodyGeometry : Block

/-! ## Constants -/

/-- The list `RENDERABLE_ELEMENTS`. -/
def RENDERABLE_ELEMENTS : List String :=
  ["IfcWall", "IfcWindow", "IfcDoor", "IfcSlab", "IfcRoof", "IfcStair",
   "IfcRailing", "IfcColumn", "IfcBeam"]

/-- The matrix literal returned at the end of `findTransform`. -/
def identityMatrix : Matrix4 :=
  !![1, 0, 0, 0;
     0, 1, 0, 0;
     0, 0, 1, 0;
     0, 0, 0, 1]

/-! ## findTransform -/

/-- The expression `node.attributes?.xformOp?.transform`. -/
def authoredTransform (node : Prim) : Option Matrix4 :=
  (node.attributes.bind (fun attrs => attrs "xformOp")).bind (fun b => b.transform)

/-- The expression `inheritPath.replace(/[</>]/g, '')`. -/
def stripPath (inheritPath : String) : String :=
  String.mk (inheritPath.data.filter (fun c => !(c == '<' || c == '/' || c == '>')))

/-- The expression `allNodes.find(n => n.name === inheritedName)`. -/
def findByName (allNodes : List Prim) (inheritedName : String) : Option Prim :=
  allNodes.find? (fun n => n.name == inheritedName)

/-- Truthiness of a matrix value: an array is always truthy. -/
def truthyMatrix (_ : Matrix4) : Bool := true

/-- The loop `for (const inheritPath of node.inherits)` of `findTransform`,
given the recursive call `recurse`.  The outer `none` is an exhausted budget
of the recursive call; `some none` means the loop ended without returning;
`some (some t)` means the loop returned `t`. -/
def inheritsLoop (recurse : Prim → Option Matrix4) (allNodes : List Prim) :
    List String → Option (Option Matrix4)
  | [] => some none
  | inheritPath :: rest =>
    let inheritedName := stripPath inheritPath
    match findByName allNodes inheritedName with
    | some inheritedNode =>
      match recurse inheritedNode with
      | none => none
      | some inheritedTransform =>
        if truthyMatrix inheritedTransform then some (some inheritedTransform)
        else inheritsLoop recurse allNodes rest
    | none => inheritsLoop recurse allNodes rest

/-- The function `findTransform(node, allNodes)` with a recursion budget. -/
def findTransform : Nat → Prim → List Prim → Option Matrix4
  | 0, _, _ => none
  | fuel + 1, node, allNodes =>
    match authoredTransform node with
    | some t => some t
    | none =>
      match node.inherits with
      | some paths =>
        match inheritsLoop (fun n => findTransform fuel n allNodes) allNodes paths with
        | none => none
        | some (some t) => some t
        | some none => some identityMatrix
      | none => some identityMatrix

/-! ## getMeshNodes -/

/-- The array `reorientedPoint = [x, z, -y, 1]` where `[x, y, z] = point`. -/
def reorientedPoint (point : Point3) : Fin 4 → ℚ :=
  ![point 0, point 2, -(point 1), 1]

/-- The array `transformed` computed for one point. -/
def transformPoint (transform : Matrix4) (point : Point3) : Point3 :=
  let r := reorientedPoint point
  ![r 0 * transform 0 0 + r 1 * transform 0 1 + r 2 * transform 0 2 + transform 0 3,
    r 0 * transform 1 0 + r 1 * transform 1 1 + r 2 * transform 1 2 + transform 1 3,
    r 0 * transform 2 0 + r 1 * transform 2 1 + r 2 * transform 2 2 + transform 2 3]

/-- The expression `node.attributes?.[key]`. -/
def attributeOf (node : Prim) (key : String) : Option Block :=
  node.attributes.bind (fun attrs => attrs key)

/-- The expression `node.attributes?.['ifc5:class']?.code`. -/
def classCode (node : Prim) : Option String :=
  (node.attributes.bind (fun attrs => attrs "ifc5:class")).bind (fun b => b.code)

/-- The predicate of the first filter of `getMeshNodes`:
`node.attributes?.['ifc5:class']?.code && RENDERABLE_ELEMENTS.includes(code)`. -/
def isRenderable (node : Prim) : Bool :=
  match classCode node with
  | some code => code != "" && RENDERABLE_ELEMENTS.contains code
  | none => false

/-- The object spread `{ ...acc, ...attributes }`; spreading an absent
`attributes` adds nothing. -/
def spread (acc : Attributes) (attributes : Option Attributes) : Attributes :=
  match attributes with
  | some attrs => fun k => (attrs k).orElse (fun _ => acc k)
  | none => acc

/-- The empty object `{}`. -/
def emptyAttributes : Attributes := fun _ => none

/-- The array `bodyNodes` of an element. -/
def bodyNodesOf (allNodes : List Prim) (ifcNode : Prim) : List Prim :=
  allNodes.filter (fun n => n.name == ifcNode.name ++ "_Body")

/-- The object `mergedAttributes` of an element:
`bodyNodes.reduce((acc, node) => ({ ...acc, ...node.attributes }), {})`. -/
def mergedAttributesOf (bodyNodes : List Prim) : Attributes :=
  bodyNodes.foldl (fun acc node => spread acc node.attributes) emptyAttributes

/-- The body of the `forEach` callback of `getMeshNodes` for one element, as
the list of meshes it pushes (none or one); `none` when `findTransform`
exhausts its budget. -/
def processIfcNode (fuel : Nat) (allNodes : List Prim) (ifcNode : Prim) :
    Option (List MeshNode) :=
  let bodyNodes := bodyNodesOf allNodes ifcNode
  if bodyNodes.length == 0 then some []
  else
    let mergedAttributes := mergedAttributesOf bodyNodes
    match mergedAttributes "UsdGeom:Mesh" with
    | none => some []
    | some geometry =>
      match geometry.points, geometry.faceVertexIndices with
      | some points, some _ =>
        match findTransform fuel ifcNode allNodes with
        | none => none
        | some transform =>
          let transformedPoints := points.map (transformPoint transform)
          some [{ node := ifcNode,
                  bodyGeometry := { geometry with points := some transformedPoints } }]
      | _, _ => some []

/-- The loop `ifcNodes.forEach(...)` with the accumulator `meshNodes`. -/
def forEachIfcNode (fuel : Nat) (allNodes : List Prim) :
    List Prim → List MeshNode → Option (List MeshNode)
  | [], meshNodes => some meshNodes
  | ifcNode :: rest, meshNodes =>
    match processIfcNode fuel allNodes ifcNode with
    | none => none
    | some pushed => forEachIfcNode fuel allNodes rest (meshNodes ++ pushed)

/-- The function `getMeshNodes(allNodes)`; the argument `none` is a null or
undefined `allNodes`. -/
def getMeshNodes (fuel : Nat) (allNodes : Option (List Prim)) : Option (List MeshNode) :=
  match allNodes with
  | none => some []
  | some nodes =>
    let ifcNodes := nodes.filter isRenderable
    forEachIfcNode fuel nodes ifcNodes []

/-! ## Scenarios used to exercise the statements -/

/-- A translation by 5 along the first axis. -/
def translate5 : Matrix4 :=
  !![1, 0, 0, 5;
     0, 1, 0, 0;
     0, 0, 1, 0;
     0, 0, 0, 1]

/-- An attribute map with the single key `key`. -/
def singleAttr (key : String) (b : Block) : Attributes :=
  fun k => if k = key then some b else none

/-- A prim `Proto` carrying the authored transform `translate5`. -/
def protoPrim : Prim :=
  Prim.mk "Proto" (some (singleAttr "xformOp" { transform := some translate5 })) none []

/-- A prim `Wall_01` of class `IfcWall` inheriting from `</Proto>`. -/
def wallPrim : Prim :=
  Prim.mk "Wall_01" (some (singleAttr "ifc5:class" { code := some "IfcWall" }))
    (some ["</Proto>"]) []

/-- A satellite `Wall_01_Body` with one point and one index. -/
def wallBodyPrim : Prim :=
  Prim.mk "Wall_01_Body"
    (some (singleAttr "UsdGeom:Mesh"
      { points := some [![0, 0, 0]], faceVertexIndices := some [0] })) none []

/-- The end-to-end scenario: element, prototype, body satellite. -/
def wallScenario : List Prim := [wallPrim, protoPrim, wallBodyPrim]

/-- A prim `A` inheriting from `</B>` then `</C>`, without attributes. -/
def primA : Prim := Prim.mk "A" none (some ["</B>", "</C>"]) []

/-- A prim `B` with neither attributes nor `inherits`. -/
def primB : Prim := Prim.mk "B" none none []

/-- A prim `C` carrying the authored transform `translate5`. -/
def primC : Prim :=
  Prim.mk "C" (some (singleAttr "xformOp" { transform := some translate5 })) none []

/-- A prim `A` inheriting from `</B>` only. -/
def cycleA : Prim := Prim.mk "A" none (some ["</B>"]) []

/-- A prim `B` inheriting from `</A>` only. -/
def cycleB : Prim := Prim.mk "B" none (some ["</A>"]) []

/-- The prim `p` occurs nested under the children of `q`, at any depth. -/
inductive IsDescendant : Prim → Prim → Prop where
  | child {p q : Prim} : p ∈ q.children → IsDescendant p q
  | deeper {p c q : Prim} : c ∈ q.children → IsDescendant p c → IsDescendant p q

/-- The geometry-presence condition of an element: at least one prim of the
list is named `<name>_Body` and the `UsdGeom:Mesh` block of the merged
satellite attributes has both `points` and `faceVertexIndices`. -/
def GeometryComplete (allNodes : List Prim) (e : Prim) : Prop :=
  (∃ s ∈ allNodes, s.name = e.name ++ "_Body") ∧
    ∃ g, mergedAttributesOf (bodyNodesOf allNodes e) "UsdGeom:Mesh" = some g ∧
      g.points.isSome = true ∧ g.faceVertexIndices.isSome = true

/-- A prim `P` carrying the authored transform `translate5`. -/
def nestedP : Prim :=
  Prim.mk "P" (some (singleAttr "xformOp" { transform := some translate5 })) none []

/-- A prim `Root` whose only child is `P`. -/
def rootWithP : Prim := Prim.mk "Root" none none [nestedP]

/-- A prim `A` inheriting from `</P>`. -/
def refersToP : Prim := Prim.mk "A" none (some ["</P>"]) []

/-- A prim `Group` whose only child is the satellite `Wall_01_Body`. -/
def groupWithBody : Prim := Prim.mk "Group" none none [wallBodyPrim]

/-- The element `Wall_01` with its satellite nested under `Group`. -/
def nestedBodyScenario : List Prim := [wallPrim, protoPrim, groupWithBody]

/-- The mesh expected for `Wall_01` in the end-to-end scenario. -/
def wallMesh : MeshNode :=
  { node := wallPrim,
    bodyGeometry := { points := some [![5, 0, 0]], faceVertexIndices := some [0] } }

/-- A first satellite `Wall_01_Body` with an empty mesh block. -/
def wallBodyFirst : Prim :=
  Prim.mk "Wall_01_Body" (some (singleAttr "UsdGeom:Mesh" { })) none []

/-- The element `Wall_01` with two satellites defining the same key. -/
def twoBodiesScenario : List Prim := [wallPrim, wallBodyFirst, protoPrim, wallBodyPrim]

/-- An edge of the inherits graph of a list: `p` has no authored transform and
one of its `inherits` entries, once stripped, is resolved by the name lookup
to `q` (the first prim of the list bearing that name). -/
def inheritsEdge (allNodes : List Prim) (p q : Prim) : Prop :=
  authoredTransform p = none ∧
    ∃ paths, p.inherits = some paths ∧
      ∃ ref ∈ paths, findByName allNodes (stripPath ref) = some q

/-! ## Basic facts about the embedding -/

theorem findTransform_succ (fuel : Nat) (node : Prim) (allNodes : List Prim) :
    findTransform (fuel + 1) node allNodes =
      match authoredTransform node with
      | some t => some t
      | none =>
        match node.inherits with
        | some paths =>
          match inheritsLoop (fun n => findTransform fuel n allNodes) allNodes paths with
          | none => none
          | some (some t) => some t
          | some none => some identityMatrix
        | none => some identityMatrix := rfl

theorem findByName_eq_none {allNodes : List Prim} {nm : String}
    (h : ∀ n ∈ allNodes, n.name ≠ nm) : findByName allNodes nm = none := by
  unfold findByName
  rw [List.find?_eq_none]
  intro n hn
  simpa using h n hn

theorem findByName_some {allNodes : List Prim} {nm : String} {c : Prim}
    (h : findByName allNodes nm = some c) : c ∈ allNodes ∧ c.name = nm := by
  unfold findByName at h
  refine ⟨List.mem_of_find?_eq_some h, ?_⟩
  simpa using List.find?_some h

theorem findByName_isSome {allNodes : List Prim} {nm : String} {c : Prim}
    (hc : c ∈ allNodes) (hn : c.name = nm) :
    ∃ d, findByName allNodes nm = some d := by
  cases hf : findByName allNodes nm with
  | some d => exact ⟨d, rfl⟩
  | none =>
    unfold findByName at hf
    rw [List.find?_eq_none] at hf
    have := hf c hc
    simp [hn] at this

theorem inheritsLoop_cons_none {recurse : Prim → Option Matrix4} {allNodes : List Prim}
    {inheritPath : String} (rest : List String)
    (h : findByName allNodes (stripPath inheritPath) = none) :
    inheritsLoop recurse allNodes (inheritPath :: rest) = inheritsLoop recurse allNodes rest := by
  simp [inheritsLoop, h]

theorem inheritsLoop_cons_some {recurse : Prim → Option Matrix4} {allNodes : List Prim}
    {inheritPath : String} (rest : List String) {c : Prim}
    (h : findByName allNodes (stripPath inheritPath) = some c) :
    inheritsLoop recurse allNodes (inheritPath :: rest) =
      (recurse c).map some := by
  cases hr : recurse c <;> simp [inheritsLoop, h, hr, truthyMatrix]

theorem inheritsLoop_unresolved (recurse : Prim → Option Matrix4) (allNodes : List Prim)
    (paths : List String)
    (h : ∀ p ∈ paths, ∀ n ∈ allNodes, n.name ≠ stripPath p) :
    inheritsLoop recurse allNodes paths = some none := by
  induction paths with
  | nil => rfl
  | cons p rest ih =>
    rw [inheritsLoop_cons_none rest (findByName_eq_none (h p (List.mem_cons_self _ _)))]
    exact ih (fun q hq => h q (List.mem_cons_of_mem _ hq))

theorem inheritsLoop_mono {r r' : Prim → Option Matrix4} {allNodes : List Prim}
    (hr : ∀ n t, r n = some t → r' n = some t) (paths : List String) (x : Option Matrix4)
    (h : inheritsLoop r allNodes paths = some x) :
    inheritsLoop r' allNodes paths = some x := by
  induction paths with
  | nil => simpa [inheritsLoop] using h
  | cons p rest ih =>
    cases hf : findByName allNodes (stripPath p) with
    | none =>
      rw [inheritsLoop_cons_none rest hf] at h ⊢
      exact ih h
    | some c =>
      rw [inheritsLoop_cons_some rest hf] at h ⊢
      cases hc : r c with
      | none => simp [hc] at h
      | some t =>
        rw [hr c t hc]
        simpa [hc] using h

/-- A larger recursion budget never changes a result already obtained. -/
theorem findTransform_mono_succ (fuel : Nat) (allNodes : List Prim) :
    ∀ (node : Prim) (t : Matrix4), findTransform fuel node allNodes = some t →
      findTransform (fuel + 1) node allNodes = some t := by
  induction fuel with
  | zero => intro node t h; simp [findTransform] at h
  | succ k ih =>
    intro node t h
    rw [findTransform_succ] at h ⊢
    cases ha : authoredTransform node with
    | some a => simpa [ha] using h
    | none =>
      simp only [ha] at h ⊢
      cases hi : node.inherits with
      | none => simpa [hi] using h
      | some paths =>
        simp only [hi] at h ⊢
        cases hl : inheritsLoop (fun n => findTransform k n allNodes) allNodes paths with
        | none => simp [hl] at h
        | some x =>
          rw [@inheritsLoop_mono (fun n => findTransform k n allNodes)
            (fun n => findTransform (k + 1) n allNodes) allNodes ih paths x hl]
          simpa [hl] using h

/-- A result obtained with some budget is obtained with every larger one. -/
theorem findTransform_mono {fuel fuel' : Nat} (hle : fuel ≤ fuel') (allNodes : List Prim)
    (node : Prim) (t : Matrix4) (h : findTransform fuel node allNodes = some t) :
    findTransform fuel' node allNodes = some t := by
  induction hle with
  | refl => exact h
  | step _ ih => exact findTransform_mono_succ _ allNodes node t ih

/-- Two prims without authored transform whose single `inherits` entries
resolve to each other exhaust every recursion budget. -/
theorem findTransform_cycle_none (allNodes : List Prim) (a b : Prim) (pa pb : String)
    (hA : authoredTransform a = none) (hB : authoredTransform b = none)
    (hIa : a.inherits = some [pb]) (hIb : b.inherits = some [pa])
    (hFb : findByName allNodes (stripPath pb) = some b)
    (hFa : findByName allNodes (stripPath pa) = some a) :
    ∀ fuel, findTransform fuel a allNodes = none ∧ findTransform fuel b allNodes = none := by
  intro fuel
  induction fuel with
  | zero => exact ⟨rfl, rfl⟩
  | succ k ih =>
    constructor
    · rw [findTransform_succ]
      simp only [hA, hIa]
      rw [inheritsLoop_cons_some _ hFb]
      simp [ih.2]
    · rw [findTransform_succ]
      simp only [hB, hIb]
      rw [inheritsLoop_cons_some _ hFa]
      simp [ih.1]

theorem cycle_lookup_B : findByName [cycleA, cycleB] (stripPath "</B>") = some cycleB := by
  simp [findByName, stripPath, cycleA, cycleB, Prim.name]

theorem cycle_lookup_A : findByName [cycleA, cycleB] (stripPath "</A>") = some cycleA := by
  simp [findByName, stripPath, cycleA, cycleB, Prim.name]

/-! ## Facts about the mesh loop -/

theorem isRenderable_iff (n : Prim) :
    isRenderable n = true ↔ ∃ code, classCode n = some code ∧ code ∈ RENDERABLE_ELEMENTS := by
  unfold isRenderable
  cases h : classCode n with
  | none => simp
  | some code =>
    have hmem : RENDERABLE_ELEMENTS.contains code = true ↔ code ∈ RENDERABLE_ELEMENTS := by
      simp
    simp only [Bool.and_eq_true, bne_iff_ne, ne_eq, hmem, Option.some.injEq, exists_eq_left']
    constructor
    · exact fun hc => hc.2
    · intro hc
      refine ⟨?_, hc⟩
      rintro rfl
      revert hc
      decide

theorem bodyNodesOf_eq_nil_iff (allNodes : List Prim) (e : Prim) :
    bodyNodesOf allNodes e = [] ↔ ¬ ∃ s ∈ allNodes, s.name = e.name ++ "_Body" := by
  simp [bodyNodesOf, List.filter_eq_nil_iff]

theorem processIfcNode_of_not_complete (fuel : Nat) (allNodes : List Prim) (e : Prim)
    (h : ¬ GeometryComplete allNodes e) : processIfcNode fuel allNodes e = some [] := by
  unfold processIfcNode
  by_cases hb : bodyNodesOf allNodes e = []
  · simp [hb]
  · have hex : ∃ s ∈ allNodes, s.name = e.name ++ "_Body" := by
      by_contra hn
      exact hb ((bodyNodesOf_eq_nil_iff allNodes e).2 hn)
    simp only [List.length_eq_zero, beq_iff_eq, hb, if_false]
    cases hg : mergedAttributesOf (bodyNodesOf allNodes e) "UsdGeom:Mesh" with
    | none => rfl
    | some g =>
      cases hp : g.points with
      | none => simp [hp]
      | some pts =>
        cases hf : g.faceVertexIndices with
        | none => simp [hp, hf]
        | some fvi =>
          exact absurd ⟨hex, g, hg, by simp [hp], by simp [hf]⟩ h

theorem processIfcNode_of_complete (fuel : Nat) (allNodes : List Prim) (e : Prim)
    (h : GeometryComplete allNodes e) :
    ∃ g pts, mergedAttributesOf (bodyNodesOf allNodes e) "UsdGeom:Mesh" = some g ∧
      g.points = some pts ∧
      processIfcNode fuel allNodes e =
        (findTransform fuel e allNodes).map (fun t =>
          [{ node := e,
             bodyGeometry := { g with points := some (pts.map (transformPoint t)) } }]) := by
  obtain ⟨hex, g, hg, hp, hf⟩ := h
  have hb : bodyNodesOf allNodes e ≠ [] := fun hb =>
    (bodyNodesOf_eq_nil_iff allNodes e).1 hb hex
  obtain ⟨pts, hpts⟩ := Option.isSome_iff_exists.1 hp
  obtain ⟨fvi, hfvi⟩ := Option.isSome_iff_exists.1 hf
  refine ⟨g, pts, hg, hpts, ?_⟩
  unfold processIfcNode
  simp only [List.length_eq_zero, beq_iff_eq, hb, if_false, hg, hpts, hfvi]
  cases findTransform fuel e allNodes <;> rfl

theorem processIfcNode_some (fuel : Nat) (allNodes : List Prim) (e : Prim)
    (ps : List MeshNode) (h : processIfcNode fuel allNodes e = some ps) :
    (ps = [] ∧ ¬ GeometryComplete allNodes e) ∨
      (GeometryComplete allNodes e ∧ ∃ m, ps = [m] ∧ m.node = e) := by
  by_cases hc : GeometryComplete allNodes e
  · right
    refine ⟨hc, ?_⟩
    obtain ⟨g, pts, _, _, heq⟩ := processIfcNode_of_complete fuel allNodes e hc
    rw [heq] at h
    cases ht : findTransform fuel e allNodes with
    | none => simp [ht] at h
    | some t =>
      simp only [ht, Option.map_some', Option.some.injEq] at h
      exact ⟨_, h.symm, rfl⟩
  · left
    rw [processIfcNode_of_not_complete fuel allNodes e hc] at h
    exact ⟨(Option.some.inj h).symm, hc⟩

theorem forEachIfcNode_some (fuel : Nat) (allNodes : List Prim) :
    ∀ (l : List Prim) (acc out : List MeshNode),
      forEachIfcNode fuel allNodes l acc = some out →
      ∃ rest, out = acc ++ rest ∧ (rest.map MeshNode.node).Sublist l ∧
        (∀ m ∈ rest, GeometryComplete allNodes m.node) ∧
        (∀ e ∈ l, GeometryComplete allNodes e → ∃ m ∈ rest, m.node = e) := by
  intro l
  induction l with
  | nil =>
    intro acc out h
    simp only [forEachIfcNode, Option.some.injEq] at h
    exact ⟨[], by simp [h], by simp, by simp, by simp⟩
  | cons e l ih =>
    intro acc out h
    simp only [forEachIfcNode] at h
    cases hp : processIfcNode fuel allNodes e with
    | none => simp [hp] at h
    | some ps =>
      simp only [hp] at h
      obtain ⟨rest, hout, hsub, hall, hex⟩ := ih _ _ h
      rcases processIfcNode_some fuel allNodes e ps hp with ⟨rfl, hnc⟩ | ⟨hc, m, rfl, hm⟩
      · refine ⟨rest, by simpa using hout, hsub.trans (List.sublist_cons_self _ _), hall, ?_⟩
        intro e' he' hc'
        rcases List.mem_cons.1 he' with rfl | he'
        · exact absurd hc' hnc
        · exact hex e' he' hc'
      · refine ⟨m :: rest, by simpa using hout, ?_, ?_, ?_⟩
        · simpa [hm] using hsub
        · intro m' hm'
          rcases List.mem_cons.1 hm' with rfl | hm'
          · rw [hm]; exact hc
          · exact hall m' hm'
        · intro e' he' hc'
          rcases List.mem_cons.1 he' with rfl | he'
          · exact ⟨m, List.mem_cons_self _ _, hm⟩
          · obtain ⟨m', hm', hmn⟩ := hex e' he' hc'
            exact ⟨m', List.mem_cons_of_mem _ hm', hmn⟩

theorem getMeshNodes_some (fuel : Nat) (allNodes : List Prim) (out : List MeshNode)
    (h : getMeshNodes fuel (some allNodes) = some out) :
    (out.map MeshNode.node).Sublist (allNodes.filter isRenderable) ∧
      (∀ m ∈ out, GeometryComplete allNodes m.node) ∧
      (∀ e ∈ allNodes.filter isRenderable, GeometryComplete allNodes e →
        ∃ m ∈ out, m.node = e) := by
  simp only [getMeshNodes] at h
  obtain ⟨rest, hout, hsub, hall, hex⟩ := forEachIfcNode_some fuel allNodes _ _ _ h
  simp only [List.nil_append] at hout
  subst hout
  exact ⟨hsub, hall, hex⟩

theorem wall_filter : wallScenario.filter isRenderable = [wallPrim] := by
  simp [wallScenario, isRenderable, classCode, wallPrim, protoPrim, wallBodyPrim,
    Prim.attributes, singleAttr, RENDERABLE_ELEMENTS, List.filter]

theorem wall_body : bodyNodesOf wallScenario wallPrim = [wallBodyPrim] := by
  simp [bodyNodesOf, wallScenario, wallPrim, protoPrim, wallBodyPrim, Prim.name, List.filter]

theorem wall_transform (fuel : Nat) :
    findTransform (fuel + 2) wallPrim wallScenario = some translate5 := by
  have hP : findByName wallScenario (stripPath "</Proto>") = some protoPrim := by
    simp [findByName, stripPath, wallScenario, wallPrim, protoPrim, Prim.name]
  have hA : authoredTransform wallPrim = none := by
    simp [authoredTransform, wallPrim, Prim.attributes, singleAttr]
  have hI : wallPrim.inherits = some ["</Proto>"] := rfl
  have hT : authoredTransform protoPrim = some translate5 := by
    simp [authoredTransform, protoPrim, Prim.attributes, singleAttr]
  rw [findTransform_succ]
  simp only [hA, hI]
  rw [inheritsLoop_cons_some _ hP]
  simp [findTransform_succ, hT]

theorem translate_origin : transformPoint translate5 ![0, 0, 0] = ![5, 0, 0] := by
  funext i
  fin_cases i <;>
    simp [transformPoint, reorientedPoint, translate5, Matrix.vecHead, Matrix.vecTail]

theorem getMeshNodes_wallScenario (fuel : Nat) :
    getMeshNodes (fuel + 2) (some wallScenario)
      = some [wallMesh] := by
  simp only [wallMesh, getMeshNodes, wall_filter, forEachIfcNode, processIfcNode, wall_body,
    mergedAttributesOf, List.foldl, spread, wallBodyPrim, Prim.attributes, singleAttr,
    emptyAttributes, wall_transform]
  simp [translate_origin]

theorem foldl_spread_absent (k : String) :
    ∀ (post : List Prim) (acc : Attributes), (∀ t ∈ post, attributeOf t k = none) →
      (post.foldl (fun acc node => spread acc node.attributes) acc) k = acc k := by
  intro post
  induction post with
  | nil => intro acc _; rfl
  | cons t post ih =>
    intro acc h
    rw [List.foldl_cons, ih _ (fun u hu => h u (List.mem_cons_of_mem _ hu))]
    have ht := h t (List.mem_cons_self _ _)
    unfold attributeOf at ht
    unfold spread
    cases ha : t.attributes with
    | none => rfl
    | some attrs =>
      rw [ha] at ht
      simp only [Option.some_bind] at ht
      simp [ht]

theorem spread_present (acc : Attributes) (s : Prim) (k : String) (v : Block)
    (h : attributeOf s k = some v) : spread acc s.attributes k = some v := by
  unfold attributeOf at h
  unfold spread
  cases ha : s.attributes with
  | none => simp [ha] at h
  | some attrs =>
    rw [ha] at h
    simp only [Option.some_bind] at h
    simp [h]

theorem nested_lookup : findByName [refersToP, rootWithP] nestedP.name = none := by
  simp [findByName, refersToP, rootWithP, nestedP, Prim.name]

theorem nested_transform (fuel : Nat) :
    findTransform (fuel + 1) refersToP [refersToP, rootWithP] = some identityMatrix := by
  have hA : authoredTransform refersToP = none := rfl
  have hI : refersToP.inherits = some ["</P>"] := rfl
  have hF : findByName [refersToP, rootWithP] (stripPath "</P>") = none := by
    simp [findByName, stripPath, refersToP, rootWithP, Prim.name]
  rw [findTransform_succ]
  simp only [hA, hI]
  rw [inheritsLoop_cons_none _ hF]
  rfl

theorem translate5_ne_identity : translate5 ≠ identityMatrix := by
  intro h
  have := congrFun (congrFun h 0) 3
  simp [translate5, identityMatrix] at this

theorem nested_body : bodyNodesOf nestedBodyScenario wallPrim = [] := by
  simp [bodyNodesOf, nestedBodyScenario, wallPrim, protoPrim, groupWithBody, Prim.name,
    List.filter]

theorem nested_filter : nestedBodyScenario.filter isRenderable = [wallPrim] := by
  simp [nestedBodyScenario, isRenderable, classCode, wallPrim, protoPrim, groupWithBody,
    Prim.attributes, singleAttr, RENDERABLE_ELEMENTS, List.filter]

/-! ## Geometry transformer -/

/-- C1: for every source point `(x, y, z)` and every 4x4 matrix `M`, the
transformed point is `out[i] = x*M[i][0] + z*M[i][1] + (-y)*M[i][2] + M[i][3]`
for `i` in `{0,1,2}`, that is the first three rows of `M` applied to the
reoriented homogeneous vector `(x, z, -y, 1)`.  The point `(1,2,3)` reorients
to `(1,3,-2,1)`, the identity matrix yields `(x, z, -y)`, and a translation
matrix by `(tx,ty,tz)` yields `(x+tx, z+ty, -y+tz)`. -/
theorem transformPoint_formula (M : Matrix4) (x y z : ℚ) :
    (∀ i : Fin 3, transformPoint M ![x, y, z] i
        = x * M i.castSucc 0 + z * M i.castSucc 1 + (-y) * M i.castSucc 2 + M i.castSucc 3)
    ∧ (∀ i : Fin 3, transformPoint M ![x, y, z] i
        = (∑ j : Fin 3, reorientedPoint ![x, y, z] j.castSucc * M i.castSucc j.castSucc)
            + M i.castSucc 3)
    ∧ reorientedPoint ![x, y, z] = ![x, z, -y, 1]
    ∧ reorientedPoint ![1, 2, 3] = ![1, 3, -2, 1]
    ∧ transformPoint identityMatrix ![x, y, z] = ![x, z, -y]
    ∧ (∀ tx ty tz : ℚ,
        transformPoint !![1, 0, 0, tx; 0, 1, 0, ty; 0, 0, 1, tz; 0, 0, 0, 1] ![x, y, z]
          = ![x + tx, z + ty, -y + tz]) := by
  have h2 : (Fin.castSucc (2 : Fin 3) : Fin 4) = 2 := rfl
  refine ⟨?_, ?_, ?_, ?_, ?_, ?_⟩
  · intro i
    fin_cases i <;> simp [transformPoint, reorientedPoint, h2]
  · intro i
    fin_cases i <;> simp [transformPoint, reorientedPoint, Fin.sum_univ_three, h2]
  · simp [reorientedPoint]
  · simp [reorientedPoint]
  · funext i
    fin_cases i <;>
      simp [transformPoint, reorientedPoint, identityMatrix, Matrix.vecHead, Matrix.vecTail]
  · intro tx ty tz
    funext i
    fin_cases i <;> simp [transformPoint, reorientedPoint, Matrix.vecHead, Matrix.vecTail]

/-! ## Transform resolution -/

/-- C2: if `A` has no authored transform, `A.inherits = [ref(B), ref(C)]`, no
prim of the list is named `B` and the prim named `C` carries the authored
transform `T`, then `findTransform(A, list)` returns `T`. -/
theorem findTransform_short_circuit (allNodes : List Prim) (a : Prim) (pB pC : String)
    (T : Matrix4)
    (hA : authoredTransform a = none)
    (hI : a.inherits = some [pB, pC])
    (hB : ∀ n ∈ allNodes, n.name ≠ stripPath pB)
    (hC : ∃ c ∈ allNodes, c.name = stripPath pC)
    (hT : ∀ c ∈ allNodes, c.name = stripPath pC → authoredTransform c = some T) :
    ∀ fuel, findTransform (fuel + 2) a allNodes = some T := by
  intro fuel
  obtain ⟨c, hc, hcn⟩ := hC
  obtain ⟨d, hd⟩ := findByName_isSome hc hcn
  have hdT : authoredTransform d = some T :=
    hT d (findByName_some hd).1 (findByName_some hd).2
  rw [findTransform_succ]
  simp only [hA, hI]
  rw [inheritsLoop_cons_none _ (findByName_eq_none hB), inheritsLoop_cons_some _ hd]
  simp [findTransform_succ, hdT]

theorem findTransform_short_circuit_witness :
    findTransform 2 primA [primA, primC] = some translate5 :=
  findTransform_short_circuit [primA, primC] primA "</B>" "</C>" translate5 rfl rfl
    (by decide) ⟨primC, by simp, by decide⟩
    (by
      intro c hc hn
      simp only [List.mem_cons, List.mem_singleton, List.not_mem_nil, or_false] at hc
      rcases hc with rfl | rfl
      · exact absurd hn (by decide)
      · rfl) 0

/-- C3 (behaviour of the code): with `A.inherits = [ref(B), ref(C)]`, `B`
present in the list without any transform and `C` carrying the authored
transform `translate5`, `findTransform(A, list)` stops at `B` and returns the
identity matrix, not the transform of `C`. -/
theorem findTransform_stops_at_transformless :
    findByName [primA, primB, primC] (stripPath "</B>") = some primB
    ∧ authoredTransform primB = none ∧ primB.inherits = none
    ∧ findByName [primA, primB, primC] (stripPath "</C>") = some primC
    ∧ authoredTransform primC = some translate5
    ∧ translate5 ≠ identityMatrix
    ∧ ∀ fuel, findTransform (fuel + 2) primA [primA, primB, primC] = some identityMatrix := by
  have hB : findByName [primA, primB, primC] (stripPath "</B>") = some primB := by
    simp [findByName, stripPath, primA, primB, Prim.name]
  have hC : findByName [primA, primB, primC] (stripPath "</C>") = some primC := by
    simp [findByName, stripPath, primA, primB, primC, Prim.name]
  refine ⟨hB, rfl, rfl, hC, rfl, ?_, ?_⟩
  · intro h
    have := congrFun (congrFun h 0) 3
    simp [translate5, identityMatrix] at this
  · intro fuel
    rw [findTransform_succ]
    have hA : authoredTransform primA = none := rfl
    have hI : primA.inherits = some ["</B>", "</C>"] := rfl
    simp only [hA, hI]
    rw [inheritsLoop_cons_some _ hB]
    have : findTransform (fuel + 1) primB [primA, primB, primC] = some identityMatrix := by
      rw [findTransform_succ]; rfl
    simp [this]

/-- C4 (as the code behaves): when `A` and `B` carry no authored transform,
`A.inherits = [ref(B)]` resolves to `B` and `B.inherits = [ref(A)]` resolves to
`A`, the recursion of `findTransform(A, list)` is unbounded: it exhausts every
recursion budget and returns no matrix. -/
theorem findTransform_cycle_diverges (allNodes : List Prim) (a b : Prim) (pa pb : String)
    (hA : authoredTransform a = none) (hB : authoredTransform b = none)
    (hIa : a.inherits = some [pb]) (hIb : b.inherits = some [pa])
    (hFb : findByName allNodes (stripPath pb) = some b)
    (hFa : findByName allNodes (stripPath pa) = some a) :
    ∀ fuel, findTransform fuel a allNodes = none :=
  fun fuel => (findTransform_cycle_none allNodes a b pa pb hA hB hIa hIb hFb hFa fuel).1

theorem findTransform_cycle_diverges_witness :
    findTransform 1000 cycleA [cycleA, cycleB] = none :=
  findTransform_cycle_diverges [cycleA, cycleB] cycleA cycleB "</A>" "</B>" rfl rfl rfl rfl
    cycle_lookup_B cycle_lookup_A 1000

/-- C4 (counterexample to the claim as stated): on the list `[A, B]` with
`A.inherits = ["</B>"]`, `B.inherits = ["</A>"]` and no transform anywhere, no
recursion budget lets `findTransform(A, list)` return the identity matrix. -/
theorem findTransform_cycle_never_identity :
    ¬ ∃ fuel, findTransform fuel cycleA [cycleA, cycleB] = some identityMatrix := by
  rintro ⟨fuel, h⟩
  have := (findTransform_cycle_none [cycleA, cycleB] cycleA cycleB "</A>" "</B>"
    rfl rfl rfl rfl cycle_lookup_B cycle_lookup_A fuel).1
  rw [this] at h
  exact Option.noConfusion h

/-- C5: a prim without authored transform whose `inherits` list is absent,
empty, or made only of references whose stripped names match no prim of the
list resolves to the identity matrix `[[1,0,0,0],[0,1,0,0],[0,0,1,0],[0,0,0,1]]`. -/
theorem findTransform_identity_fallback (allNodes : List Prim) (node : Prim)
    (hA : authoredTransform node = none)
    (hI : node.inherits = none ∨ node.inherits = some [] ∨
      ∃ paths, node.inherits = some paths ∧
        ∀ p ∈ paths, ∀ n ∈ allNodes, n.name ≠ stripPath p) :
    ∀ fuel, findTransform (fuel + 1) node allNodes
      = some !![1, 0, 0, 0; 0, 1, 0, 0; 0, 0, 1, 0; 0, 0, 0, 1] := by
  intro fuel
  rw [findTransform_succ]
  rcases hI with h | h | ⟨paths, h, hp⟩
  · simp only [hA, h]; rfl
  · simp only [hA, h, inheritsLoop]; rfl
  · simp only [hA, h, inheritsLoop_unresolved _ allNodes paths hp]; rfl

theorem findTransform_identity_fallback_witness :
    findTransform 1 primA [primA]
      = some !![1, 0, 0, 0; 0, 1, 0, 0; 0, 0, 1, 0; 0, 0, 0, 1] :=
  findTransform_identity_fallback [primA] primA rfl
    (Or.inr (Or.inr ⟨["</B>", "</C>"], rfl, by decide⟩)) 0

/-! ## Name lookup and nesting -/

/-- C6 (counterexample to the claim as stated): `P`, nested under the children
of `Root` and carrying `translate5`, is not found by name; `A` with
`inherits = ["</P>"]` never resolves to `translate5`; and the satellite
`Wall_01_Body` nested under `Group` is not collected, so no mesh is produced
for `Wall_01`. -/
theorem nested_prim_not_found :
    IsDescendant nestedP rootWithP ∧ authoredTransform nestedP = some translate5
    ∧ findByName [refersToP, rootWithP] nestedP.name = none
    ∧ (¬ ∃ fuel, findTransform fuel refersToP [refersToP, rootWithP] = some translate5)
    ∧ IsDescendant wallBodyPrim groupWithBody
    ∧ bodyNodesOf nestedBodyScenario wallPrim = []
    ∧ ∀ fuel, getMeshNodes fuel (some nestedBodyScenario) = some [] := by
  refine ⟨IsDescendant.child (by simp [rootWithP, Prim.children]), rfl, nested_lookup, ?_,
    IsDescendant.child (by simp [groupWithBody, Prim.children]), nested_body, ?_⟩
  · rintro ⟨fuel, h⟩
    cases fuel with
    | zero => simp [findTransform] at h
    | succ k =>
      rw [nested_transform k] at h
      exact translate5_ne_identity (Option.some.inj h).symm
  · intro fuel
    simp [getMeshNodes, nested_filter, forEachIfcNode, processIfcNode, nested_body]

/-- C6 (as the code behaves): name lookup covers only the top-level entries of
the list.  When `P` occurs nested under the children of a top-level prim and
no top-level prim bears the name of `P`, the lookup of `P.name` finds nothing;
a prim `A` without authored transform and with `inherits = [ref(P)]` resolves
to the identity matrix; and when `P` is named `<N>_Body` it is not collected
as a satellite of the element `N`, which gets no mesh. -/
theorem lookup_ignores_children (allNodes : List Prim) (P q : Prim)
    (_hq : q ∈ allNodes) (_hnest : IsDescendant P q)
    (htop : ∀ n ∈ allNodes, n.name ≠ P.name) :
    findByName allNodes P.name = none
    ∧ (∀ a ref, authoredTransform a = none → a.inherits = some [ref] →
        stripPath ref = P.name →
        ∀ fuel, findTransform (fuel + 1) a allNodes = some identityMatrix)
    ∧ (∀ e, P.name = e.name ++ "_Body" →
        bodyNodesOf allNodes e = [] ∧
        ∀ fuel out, getMeshNodes fuel (some allNodes) = some out →
          ∀ m ∈ out, m.node ≠ e) := by
  refine ⟨findByName_eq_none htop, ?_, ?_⟩
  · intro a ref hA hI hr fuel
    rw [findTransform_succ]
    simp only [hA, hI]
    rw [inheritsLoop_cons_none _ (findByName_eq_none (hr ▸ htop))]
    rfl
  · intro e hname
    have hno : ¬ ∃ s ∈ allNodes, s.name = e.name ++ "_Body" := by
      rintro ⟨s, hs, hsn⟩
      exact htop s hs (hsn.trans hname.symm)
    refine ⟨(bodyNodesOf_eq_nil_iff allNodes e).2 hno, ?_⟩
    intro fuel out h m hm hme
    have hc := (getMeshNodes_some fuel allNodes out h).2.1 m hm
    rw [hme] at hc
    exact hno hc.1

theorem lookup_ignores_children_witness :
    findByName [refersToP, rootWithP] nestedP.name = none :=
  (lookup_ignores_children [refersToP, rootWithP] nestedP rootWithP (by simp)
    (IsDescendant.child (by simp [rootWithP, Prim.children])) (by decide)).1

/-! ## Mesh assembly -/

/-- C7: when `getMeshNodes` completes, the originating elements of the output
meshes form an order-preserving subsequence of the input list restricted to the
prims whose `ifc5:class` code is exactly one of the nine renderable codes; a
prim without classification code or with a code outside the set never appears
in the output; and the output is not longer than the number of classified
elements. -/
theorem getMeshNodes_classified_in_order (fuel : Nat) (allNodes : List Prim)
    (out : List MeshNode) (h : getMeshNodes fuel (some allNodes) = some out) :
    (∀ n, isRenderable n = true ↔
      ∃ code, classCode n = some code ∧
        code ∈ ["IfcWall", "IfcWindow", "IfcDoor", "IfcSlab", "IfcRoof", "IfcStair",
                "IfcRailing", "IfcColumn", "IfcBeam"])
    ∧ (out.map MeshNode.node).Sublist (allNodes.filter isRenderable)
    ∧ (∀ n, (classCode n = none ∨
          ∃ code, classCode n = some code ∧
            code ∉ ["IfcWall", "IfcWindow", "IfcDoor", "IfcSlab", "IfcRoof", "IfcStair",
                    "IfcRailing", "IfcColumn", "IfcBeam"]) →
        ∀ m ∈ out, m.node ≠ n)
    ∧ out.length ≤ (allNodes.filter isRenderable).length := by
  have hsub := (getMeshNodes_some fuel allNodes out h).1
  refine ⟨isRenderable_iff, hsub, ?_, ?_⟩
  · intro n hn m hm hmn
    have hmem : m.node ∈ allNodes.filter isRenderable :=
      hsub.subset (List.mem_map_of_mem _ hm)
    rw [hmn] at hmem
    obtain ⟨code, hcode, hin⟩ := (isRenderable_iff n).1 (List.mem_filter.1 hmem).2
    rcases hn with hnone | ⟨code', hcode', hout⟩
    · rw [hnone] at hcode
      exact Option.noConfusion hcode
    · rw [hcode'] at hcode
      exact hout (Option.some.inj hcode ▸ hin)
  · simpa using hsub.length_le

theorem getMeshNodes_classified_in_order_witness :
    ([wallMesh].map MeshNode.node).Sublist (wallScenario.filter isRenderable)
    ∧ [wallMesh].length ≤ (wallScenario.filter isRenderable).length :=
  ⟨(getMeshNodes_classified_in_order 2 wallScenario [wallMesh]
      (getMeshNodes_wallScenario 0)).2.1,
   (getMeshNodes_classified_in_order 2 wallScenario [wallMesh]
      (getMeshNodes_wallScenario 0)).2.2.2⟩

/-- C8: when `getMeshNodes` completes, the output contains a mesh for a
classified element `E` if and only if some prim of the list is named
`E.name + "_Body"` and the `UsdGeom:Mesh` block of the merged satellite
attributes has both `points` and `faceVertexIndices`.  An element failing the
condition pushes nothing and raises no error at any recursion budget, so it
does not prevent the other elements from producing their meshes. -/
theorem getMeshNodes_mesh_iff_geometry (fuel : Nat) (allNodes : List Prim)
    (out : List MeshNode) (h : getMeshNodes fuel (some allNodes) = some out)
    (e : Prim) (he : e ∈ allNodes) (hc : isRenderable e = true) :
    ((∃ m ∈ out, m.node = e) ↔
      ((∃ s ∈ allNodes, s.name = e.name ++ "_Body") ∧
        ∃ g, mergedAttributesOf (bodyNodesOf allNodes e) "UsdGeom:Mesh" = some g ∧
          g.points.isSome = true ∧ g.faceVertexIndices.isSome = true))
    ∧ (¬ ((∃ s ∈ allNodes, s.name = e.name ++ "_Body") ∧
          ∃ g, mergedAttributesOf (bodyNodesOf allNodes e) "UsdGeom:Mesh" = some g ∧
            g.points.isSome = true ∧ g.faceVertexIndices.isSome = true) →
        ∀ budget, processIfcNode budget allNodes e = some []) := by
  obtain ⟨_, hall, hex⟩ := getMeshNodes_some fuel allNodes out h
  refine ⟨⟨?_, ?_⟩, ?_⟩
  · rintro ⟨m, hm, rfl⟩
    exact hall m hm
  · intro hg
    exact hex e (List.mem_filter.2 ⟨he, hc⟩) hg
  · intro hn budget
    exact processIfcNode_of_not_complete budget allNodes e hn

theorem getMeshNodes_mesh_iff_geometry_witness :
    (∃ m ∈ [wallMesh], m.node = wallPrim) ↔
      ((∃ s ∈ wallScenario, s.name = wallPrim.name ++ "_Body") ∧
        ∃ g, mergedAttributesOf (bodyNodesOf wallScenario wallPrim) "UsdGeom:Mesh" = some g ∧
          g.points.isSome = true ∧ g.faceVertexIndices.isSome = true) :=
  (getMeshNodes_mesh_iff_geometry 2 wallScenario [wallMesh] (getMeshNodes_wallScenario 0)
    wallPrim (by simp [wallScenario])
    (by simp [isRenderable, classCode, wallPrim, Prim.attributes, singleAttr,
      RENDERABLE_ELEMENTS])).1

/-- C9: for the body satellites of an element, in list order, the merged
attribute map gives to a key the whole value it has in the last satellite
defining it, and a key defined by no satellite is absent from the merged
map. -/
theorem mergedAttributes_last_wins (allNodes : List Prim) (ifcNode : Prim) (k : String) :
    (∀ (pre post : List Prim) (s : Prim) (v : Block),
        bodyNodesOf allNodes ifcNode = pre ++ s :: post →
        attributeOf s k = some v →
        (∀ t ∈ post, attributeOf t k = none) →
        mergedAttributesOf (bodyNodesOf allNodes ifcNode) k = some v)
    ∧ ((∀ s ∈ bodyNodesOf allNodes ifcNode, attributeOf s k = none) →
        mergedAttributesOf (bodyNodesOf allNodes ifcNode) k = none) := by
  constructor
  · intro pre post s v hsplit hs hpost
    rw [hsplit]
    unfold mergedAttributesOf
    rw [List.foldl_append, List.foldl_cons, foldl_spread_absent k post _ hpost]
    exact spread_present _ s k v hs
  · intro hnone
    unfold mergedAttributesOf
    rw [foldl_spread_absent k _ _ hnone]
    rfl

theorem mergedAttributes_last_wins_witness :
    attributeOf wallBodyFirst "UsdGeom:Mesh" = some { }
    ∧ mergedAttributesOf (bodyNodesOf twoBodiesScenario wallPrim) "UsdGeom:Mesh"
        = some { points := some [![0, 0, 0]], faceVertexIndices := some [0] } :=
  ⟨by simp [attributeOf, wallBodyFirst, Prim.attributes, singleAttr],
   (mergedAttributes_last_wins twoBodiesScenario wallPrim "UsdGeom:Mesh").1
    [wallBodyFirst] [] wallBodyPrim _
    (by simp [bodyNodesOf, twoBodiesScenario, wallPrim, wallBodyFirst, protoPrim,
      wallBodyPrim, Prim.name, List.filter])
    (by simp [attributeOf, wallBodyPrim, Prim.attributes, singleAttr])
    (by simp)⟩

/-- C10: on the list made of `Wall_01` (class `IfcWall`, inherits `</Proto>`,
no authored transform), `Proto` with the authored translation by `(5,0,0)` and
`Wall_01_Body` with `points: [[0,0,0]]`, `faceVertexIndices: [0]`,
`getMeshNodes` returns exactly one mesh, named `Wall_01`, with points
`[[5,0,0]]` and `faceVertexIndices` `[0]`. -/
theorem getMeshNodes_end_to_end :
    wallScenario = [wallPrim, protoPrim, wallBodyPrim]
    ∧ wallPrim.name = "Wall_01" ∧ classCode wallPrim = some "IfcWall"
    ∧ wallPrim.inherits = some ["</Proto>"] ∧ authoredTransform wallPrim = none
    ∧ protoPrim.name = "Proto"
    ∧ authoredTransform protoPrim
        = some !![1, 0, 0, 5; 0, 1, 0, 0; 0, 0, 1, 0; 0, 0, 0, 1]
    ∧ wallBodyPrim.name = "Wall_01_Body"
    ∧ (∃ g, attributeOf wallBodyPrim "UsdGeom:Mesh" = some g ∧
        g.points = some [![0, 0, 0]] ∧ g.faceVertexIndices = some [0])
    ∧ ∀ fuel, ∃ m, getMeshNodes (fuel + 2) (some wallScenario) = some [m] ∧
        m.node.name = "Wall_01" ∧ m.bodyGeometry.points = some [![5, 0, 0]] ∧
        m.bodyGeometry.faceVertexIndices = some [0] := by
  refine ⟨rfl, rfl, ?_, rfl, ?_, rfl, ?_, rfl, ?_, ?_⟩
  · simp [classCode, wallPrim, Prim.attributes, singleAttr]
  · simp [authoredTransform, wallPrim, Prim.attributes, singleAttr]
  · simp [authoredTransform, protoPrim, Prim.attributes, singleAttr, translate5]
  · exact ⟨{ points := some [![0, 0, 0]], faceVertexIndices := some [0] },
      by simp [attributeOf, wallBodyPrim, Prim.attributes, singleAttr], rfl, rfl⟩
  · intro fuel
    exact ⟨wallMesh, getMeshNodes_wallScenario fuel, rfl, rfl, rfl⟩

/-! ## Shape of the emitted meshes -/

theorem forEachIfcNode_mem (fuel : Nat) (allNodes : List Prim) :
    ∀ (l : List Prim) (acc out : List MeshNode),
      forEachIfcNode fuel allNodes l acc = some out →
      ∀ m ∈ out, m ∈ acc ∨ ∃ e ∈ l, processIfcNode fuel allNodes e = some [m] := by
  intro l
  induction l with
  | nil =>
    intro acc out h m hm
    simp only [forEachIfcNode, Option.some.injEq] at h
    exact Or.inl (h ▸ hm)
  | cons e l ih =>
    intro acc out h m hm
    simp only [forEachIfcNode] at h
    cases hp : processIfcNode fuel allNodes e with
    | none => simp [hp] at h
    | some ps =>
      simp only [hp] at h
      rcases ih _ _ h m hm with hacc | ⟨e', he', hpe⟩
      · rcases List.mem_append.1 hacc with hacc | hps
        · exact Or.inl hacc
        · right
          refine ⟨e, List.mem_cons_self _ _, ?_⟩
          rcases processIfcNode_some fuel allNodes e ps hp with ⟨rfl, _⟩ | ⟨_, m', rfl, _⟩
          · simp at hps
          · rw [List.mem_singleton.1 hps]
            exact hp
      · exact Or.inr ⟨e', List.mem_cons_of_mem _ he', hpe⟩

theorem processIfcNode_singleton (fuel : Nat) (allNodes : List Prim) (e : Prim) (m : MeshNode)
    (h : processIfcNode fuel allNodes e = some [m]) :
    ∃ g pts t, mergedAttributesOf (bodyNodesOf allNodes e) "UsdGeom:Mesh" = some g ∧
      g.points = some pts ∧ findTransform fuel e allNodes = some t ∧
      m = { node := e,
            bodyGeometry := { g with points := some (pts.map (transformPoint t)) } } := by
  rcases processIfcNode_some fuel allNodes e [m] h with ⟨hnil, _⟩ | ⟨hc, _⟩
  · simp at hnil
  · obtain ⟨g, pts, hg, hpts, heq⟩ := processIfcNode_of_complete fuel allNodes e hc
    rw [heq] at h
    cases ht : findTransform fuel e allNodes with
    | none => simp [ht] at h
    | some t =>
      simp only [ht, Option.map_some', Option.some.injEq, List.cons.injEq, and_true] at h
      exact ⟨g, pts, t, hg, hpts, rfl, h.symm⟩

/-- C11: every mesh emitted by `getMeshNodes` comes from a classified element
`e` of the list whose merged satellite mesh block is `g`; its
`faceVertexIndices` are those of `g`, its points are as many as the source
points with the i-th one computed from the i-th source point, every other field
of the mesh block is that of `g`, and the mesh keeps the name and the
classification code of `e`. -/
theorem getMeshNodes_pass_through (fuel : Nat) (allNodes : List Prim) (out : List MeshNode)
    (h : getMeshNodes fuel (some allNodes) = some out) (m : MeshNode) (hm : m ∈ out) :
    ∃ e ∈ allNodes, isRenderable e = true ∧
      ∃ g pts t outPts,
        mergedAttributesOf (bodyNodesOf allNodes e) "UsdGeom:Mesh" = some g ∧
        g.points = some pts ∧ findTransform fuel e allNodes = some t ∧
        m.bodyGeometry.faceVertexIndices = g.faceVertexIndices ∧
        m.bodyGeometry.points = some outPts ∧
        outPts.length = pts.length ∧
        (∀ i : Nat, outPts[i]? = (pts[i]?).map (transformPoint t)) ∧
        m.bodyGeometry.transform = g.transform ∧ m.bodyGeometry.code = g.code ∧
        m.bodyGeometry.uri = g.uri ∧ m.bodyGeometry.other = g.other ∧
        m.node = e ∧ m.node.name = e.name ∧ classCode m.node = classCode e := by
  simp only [getMeshNodes] at h
  rcases forEachIfcNode_mem fuel allNodes _ _ _ h m hm with hnil | ⟨e, he, hpe⟩
  · simp at hnil
  · obtain ⟨g, pts, t, hg, hpts, ht, rfl⟩ := processIfcNode_singleton fuel allNodes e m hpe
    obtain ⟨heAll, heR⟩ := List.mem_filter.1 he
    exact ⟨e, heAll, heR, g, pts, t, pts.map (transformPoint t), hg, hpts, ht, rfl, rfl,
      by simp, fun i => by simp, rfl, rfl, rfl, rfl, rfl, rfl, rfl⟩

theorem getMeshNodes_pass_through_witness :
    ∃ e ∈ wallScenario, isRenderable e = true ∧
      ∃ g pts t outPts,
        mergedAttributesOf (bodyNodesOf wallScenario e) "UsdGeom:Mesh" = some g ∧
        g.points = some pts ∧ findTransform 2 e wallScenario = some t ∧
        wallMesh.bodyGeometry.faceVertexIndices = g.faceVertexIndices ∧
        wallMesh.bodyGeometry.points = some outPts ∧
        outPts.length = pts.length ∧
        (∀ i : Nat, outPts[i]? = (pts[i]?).map (transformPoint t)) ∧
        wallMesh.bodyGeometry.transform = g.transform ∧ wallMesh.bodyGeometry.code = g.code ∧
        wallMesh.bodyGeometry.uri = g.uri ∧ wallMesh.bodyGeometry.other = g.other ∧
        wallMesh.node = e ∧ wallMesh.node.name = e.name ∧
        classCode wallMesh.node = classCode e :=
  getMeshNodes_pass_through 2 wallScenario [wallMesh] (getMeshNodes_wallScenario 0) wallMesh
    (List.mem_singleton.2 rfl)

/-! ## Termination on acyclic data -/

theorem inheritsLoop_none {recurse : Prim → Option Matrix4} {allNodes : List Prim} :
    ∀ (paths : List String), inheritsLoop recurse allNodes paths = none →
      ∃ ref ∈ paths, ∃ q, findByName allNodes (stripPath ref) = some q ∧ recurse q = none := by
  intro paths
  induction paths with
  | nil => intro h; simp [inheritsLoop] at h
  | cons p rest ih =>
    intro h
    cases hf : findByName allNodes (stripPath p) with
    | none =>
      rw [inheritsLoop_cons_none rest hf] at h
      obtain ⟨ref, hr, q, hq, hn⟩ := ih h
      exact ⟨ref, List.mem_cons_of_mem _ hr, q, hq, hn⟩
    | some c =>
      rw [inheritsLoop_cons_some rest hf] at h
      refine ⟨p, List.mem_cons_self _ _, c, hf, ?_⟩
      simpa using h

theorem inheritsLoop_some {recurse : Prim → Option Matrix4} {allNodes : List Prim}
    {t : Matrix4} :
    ∀ (paths : List String), inheritsLoop recurse allNodes paths = some (some t) →
      ∃ q ∈ allNodes, recurse q = some t := by
  intro paths
  induction paths with
  | nil => intro h; simp [inheritsLoop] at h
  | cons p rest ih =>
    intro h
    cases hf : findByName allNodes (stripPath p) with
    | none =>
      rw [inheritsLoop_cons_none rest hf] at h
      exact ih h
    | some c =>
      rw [inheritsLoop_cons_some rest hf] at h
      refine ⟨c, (findByName_some hf).1, ?_⟩
      cases hc : recurse c with
      | none => simp [hc] at h
      | some u =>
        simp only [hc, Option.map_some', Option.some.injEq] at h
        rw [h]

theorem findTransform_none_edge (fuel : Nat) (allNodes : List Prim) (p : Prim)
    (h : findTransform (fuel + 1) p allNodes = none) :
    ∃ q, inheritsEdge allNodes p q ∧ findTransform fuel q allNodes = none := by
  rw [findTransform_succ] at h
  cases ha : authoredTransform p with
  | some a => simp [ha] at h
  | none =>
    simp only [ha] at h
    cases hi : p.inherits with
    | none => simp [hi] at h
    | some paths =>
      simp only [hi] at h
      cases hl : inheritsLoop (fun n => findTransform fuel n allNodes) allNodes paths with
      | some x => cases x <;> simp [hl] at h
      | none =>
        obtain ⟨ref, hr, q, hq, hn⟩ := inheritsLoop_none paths hl
        exact ⟨q, ⟨ha, paths, hi, ref, hr, hq⟩, hn⟩

theorem findTransform_none_chain (allNodes : List Prim) :
    ∀ (fuel : Nat) (p : Prim), findTransform fuel p allNodes = none →
      ∃ qs : List Prim, qs.length = fuel ∧ List.Chain (inheritsEdge allNodes) p qs := by
  intro fuel
  induction fuel with
  | zero => intro p _; exact ⟨[], rfl, List.Chain.nil⟩
  | succ k ih =>
    intro p h
    obtain ⟨q, hedge, hq⟩ := findTransform_none_edge k allNodes p h
    obtain ⟨qs, hlen, hchain⟩ := ih q hq
    exact ⟨q :: qs, by simp [hlen], List.Chain.cons hedge hchain⟩

theorem inheritsEdge_mem {allNodes : List Prim} {p q : Prim}
    (h : inheritsEdge allNodes p q) : q ∈ allNodes := by
  obtain ⟨_, _, _, _, _, hq⟩ := h
  exact (findByName_some hq).1

theorem chain_subset (allNodes : List Prim) :
    ∀ (qs : List Prim) (p : Prim), List.Chain (inheritsEdge allNodes) p qs →
      ∀ q ∈ qs, q ∈ allNodes := by
  intro qs
  induction qs with
  | nil => intro p _ q hq; simp at hq
  | cons a qs ih =>
    intro p h q hq
    rw [List.chain_cons] at h
    rcases List.mem_cons.1 hq with rfl | hq
    · exact inheritsEdge_mem h.1
    · exact ih a h.2 q hq

theorem chain_length_le (allNodes : List Prim)
    (hacyc : ∀ p ∈ allNodes, ¬ Relation.TransGen (inheritsEdge allNodes) p p)
    (p : Prim) (qs : List Prim) (h : List.Chain (inheritsEdge allNodes) p qs) :
    qs.length ≤ allNodes.length := by
  have hsub := chain_subset allNodes qs p h
  have hT : List.Chain (Relation.TransGen (inheritsEdge allNodes)) p qs :=
    List.Chain.imp (fun _ _ hab => Relation.TransGen.single hab) h
  have hP : List.Pairwise (Relation.TransGen (inheritsEdge allNodes)) (p :: qs) :=
    List.chain_iff_pairwise.1 hT
  have hQ : List.Pairwise (Relation.TransGen (inheritsEdge allNodes)) qs :=
    (List.pairwise_cons.1 hP).2
  have hnd : qs.Nodup := by
    refine List.Pairwise.imp_of_mem ?_ hQ
    intro a b ha _ hab heq
    subst heq
    exact hacyc a (hsub a ha) hab
  exact (List.subperm_of_subset hnd hsub).length_le

theorem findTransform_total (allNodes : List Prim)
    (hacyc : ∀ p ∈ allNodes, ¬ Relation.TransGen (inheritsEdge allNodes) p p)
    (p : Prim) (fuel : Nat) (hf : allNodes.length < fuel) :
    ∃ t, findTransform fuel p allNodes = some t := by
  cases h : findTransform fuel p allNodes with
  | some t => exact ⟨t, rfl⟩
  | none =>
    obtain ⟨qs, hlen, hchain⟩ := findTransform_none_chain allNodes fuel p h
    have := chain_length_le allNodes hacyc p qs hchain
    omega

theorem findTransform_value (allNodes : List Prim) :
    ∀ (fuel : Nat) (p : Prim) (t : Matrix4), findTransform fuel p allNodes = some t →
      t = identityMatrix ∨ authoredTransform p = some t ∨
        ∃ q ∈ allNodes, authoredTransform q = some t := by
  intro fuel
  induction fuel with
  | zero => intro p t h; simp [findTransform] at h
  | succ k ih =>
    intro p t h
    rw [findTransform_succ] at h
    cases ha : authoredTransform p with
    | some a =>
      simp only [ha, Option.some.injEq] at h
      exact Or.inr (Or.inl (by rw [h]))
    | none =>
      simp only [ha] at h
      cases hi : p.inherits with
      | none =>
        simp only [hi, Option.some.injEq] at h
        exact Or.inl h.symm
      | some paths =>
        simp only [hi] at h
        cases hl : inheritsLoop (fun n => findTransform k n allNodes) allNodes paths with
        | none => simp [hl] at h
        | some x =>
          cases x with
          | none =>
            simp only [hl, Option.some.injEq] at h
            exact Or.inl h.symm
          | some u =>
            simp only [hl, Option.some.injEq] at h
            subst h
            obtain ⟨q, hq, hr⟩ := inheritsLoop_some paths hl
            rcases ih q u hr with h1 | h2 | ⟨q', hq', h3⟩
            · exact Or.inl h1
            · exact Or.inr (Or.inr ⟨q, hq, h2⟩)
            · exact Or.inr (Or.inr ⟨q', hq', h3⟩)

theorem processIfcNode_mono {fuel fuel' : Nat} (hle : fuel ≤ fuel') (allNodes : List Prim)
    (e : Prim) (ps : List MeshNode) (h : processIfcNode fuel allNodes e = some ps) :
    processIfcNode fuel' allNodes e = some ps := by
  by_cases hc : GeometryComplete allNodes e
  · obtain ⟨g, pts, hg, hpts, heq⟩ := processIfcNode_of_complete fuel allNodes e hc
    obtain ⟨g', pts', hg', hpts', heq'⟩ := processIfcNode_of_complete fuel' allNodes e hc
    rw [hg] at hg'
    have hgg : g = g' := Option.some.inj hg'
    subst hgg
    rw [hpts] at hpts'
    have hpp : pts = pts' := Option.some.inj hpts'
    subst hpp
    rw [heq] at h
    rw [heq']
    cases ht : findTransform fuel e allNodes with
    | none => simp [ht] at h
    | some t =>
      rw [findTransform_mono hle allNodes e t ht]
      simpa [ht] using h
  · rw [processIfcNode_of_not_complete fuel allNodes e hc] at h
    rw [processIfcNode_of_not_complete fuel' allNodes e hc]
    exact h

theorem forEachIfcNode_mono {fuel fuel' : Nat} (hle : fuel ≤ fuel') (allNodes : List Prim) :
    ∀ (l : List Prim) (acc out : List MeshNode),
      forEachIfcNode fuel allNodes l acc = some out →
      forEachIfcNode fuel' allNodes l acc = some out := by
  intro l
  induction l with
  | nil => intro acc out h; simpa [forEachIfcNode] using h
  | cons e l ih =>
    intro acc out h
    simp only [forEachIfcNode] at h ⊢
    cases hp : processIfcNode fuel allNodes e with
    | none => simp [hp] at h
    | some ps =>
      simp only [hp] at h
      rw [processIfcNode_mono hle allNodes e ps hp]
      exact ih _ _ h

theorem forEachIfcNode_total (fuel : Nat) (allNodes : List Prim) :
    ∀ (l : List Prim) (acc : List MeshNode),
      (∀ e ∈ l, ∃ t, findTransform fuel e allNodes = some t) →
      ∃ out, forEachIfcNode fuel allNodes l acc = some out := by
  intro l
  induction l with
  | nil => intro acc _; exact ⟨acc, rfl⟩
  | cons e l ih =>
    intro acc h
    obtain ⟨t, ht⟩ := h e (List.mem_cons_self _ _)
    have hps : ∃ ps, processIfcNode fuel allNodes e = some ps := by
      by_cases hc : GeometryComplete allNodes e
      · obtain ⟨g, pts, _, _, heq⟩ := processIfcNode_of_complete fuel allNodes e hc
        exact ⟨_, by rw [heq, ht]; rfl⟩
      · exact ⟨[], processIfcNode_of_not_complete fuel allNodes e hc⟩
    obtain ⟨ps, hp⟩ := hps
    obtain ⟨out, hout⟩ := ih (acc ++ ps) (fun e' he' => h e' (List.mem_cons_of_mem _ he'))
    exact ⟨out, by simp only [forEachIfcNode, hp, hout]⟩

theorem transGen_of_no_edge {r : Prim → Prim → Prop} {a : Prim} (h : ∀ q, ¬ r a q) :
    ∀ c, ¬ Relation.TransGen r a c := by
  intro c hc
  obtain ⟨b, hab, _⟩ := Relation.TransGen.head'_iff.1 hc
  exact h b hab

theorem wall_lookup_proto :
    findByName wallScenario (stripPath "</Proto>") = some protoPrim := by
  simp [findByName, stripPath, wallScenario, wallPrim, protoPrim, Prim.name]

theorem wallScenario_acyclic :
    ∀ p ∈ wallScenario, ¬ Relation.TransGen (inheritsEdge wallScenario) p p := by
  have hproto : ∀ q, ¬ inheritsEdge wallScenario protoPrim q := by
    rintro q ⟨ha, _⟩
    simp [authoredTransform, protoPrim, Prim.attributes, singleAttr] at ha
  have hbody : ∀ q, ¬ inheritsEdge wallScenario wallBodyPrim q := by
    rintro q ⟨_, paths, hi, _⟩
    simp [wallBodyPrim, Prim.inherits] at hi
  intro p hp
  simp only [wallScenario, List.mem_cons, List.mem_singleton, List.not_mem_nil, or_false] at hp
  rcases hp with rfl | rfl | rfl
  · intro hc
    obtain ⟨b, ⟨_, paths, hi, ref, hr, hb⟩, hrest⟩ := Relation.TransGen.head'_iff.1 hc
    have hpaths : paths = ["</Proto>"] := by
      simpa [wallPrim, Prim.inherits] using hi.symm
    subst hpaths
    rw [List.mem_singleton.1 hr, wall_lookup_proto] at hb
    have hbp : b = protoPrim := (Option.some.inj hb).symm
    subst hbp
    rcases Relation.reflTransGen_iff_eq_or_transGen.1 hrest with heq | ht
    · have := congrArg Prim.name heq
      simp [wallPrim, protoPrim, Prim.name] at this
    · exact transGen_of_no_edge hproto _ ht
  · exact transGen_of_no_edge hproto _
  · exact transGen_of_no_edge hbody _

/-- C12: when the inherits graph of a prim list is acyclic, `findTransform`
returns on every prim of the list, at every recursion budget above the length
of the list, a matrix that is either the authored transform of some prim of
the list or the identity matrix; hence `getMeshNodes` returns on such a
list. -/
theorem findTransform_terminates_of_acyclic (allNodes : List Prim)
    (hacyc : ∀ p ∈ allNodes, ¬ Relation.TransGen (inheritsEdge allNodes) p p) :
    (∀ p ∈ allNodes, ∃ t,
        (∀ fuel, allNodes.length < fuel → findTransform fuel p allNodes = some t) ∧
        (t = identityMatrix ∨ ∃ q ∈ allNodes, authoredTransform q = some t))
    ∧ ∃ out, ∀ fuel, allNodes.length < fuel → getMeshNodes fuel (some allNodes) = some out := by
  constructor
  · intro p hp
    obtain ⟨t, ht⟩ :=
      findTransform_total allNodes hacyc p (allNodes.length + 1) (Nat.lt_succ_self _)
    refine ⟨t, fun fuel hf => findTransform_mono hf allNodes p t ht, ?_⟩
    rcases findTransform_value allNodes _ p t ht with h1 | h2 | h3
    · exact Or.inl h1
    · exact Or.inr ⟨p, hp, h2⟩
    · exact Or.inr h3
  · obtain ⟨out, hout⟩ :=
      forEachIfcNode_total (allNodes.length + 1) allNodes (allNodes.filter isRenderable) []
        (fun e _ => findTransform_total allNodes hacyc e _ (Nat.lt_succ_self _))
    exact ⟨out, fun fuel hf => forEachIfcNode_mono hf allNodes _ _ _ hout⟩

theorem findTransform_terminates_of_acyclic_witness :
    ∃ t, (∀ fuel, wallScenario.length < fuel →
            findTransform fuel wallPrim wallScenario = some t) ∧
      (t = identityMatrix ∨ ∃ q ∈ wallScenario, authoredTransform q = some t) :=
  (findTransform_terminates_of_acyclic wallScenario wallScenario_acyclic).1 wallPrim
    (by simp [wallScenario])

end IFC5Viewer
